import Mathlib

/-!
Shallow embedding of src/main.c from peteyycz/eproxy.

The program is a sequential io_uring file reader: it opens the file named by
the single command-line argument, then loops submitting one 1-byte read at
the current offset, waiting for the completion, printing the chunk with
printf, advancing the offset and the running total, and marking the cqe seen;
it breaks on result 0, exits with an error on a negative result, and after
the loop prints the total and releases the descriptor and the ring.

The embedding makes the interaction with the outside world explicit: each
loop iteration consumes one record describing what the external calls
returned (whether io_uring_get_sqe produced a slot, the return values of
io_uring_submit and io_uring_wait_cqe, the completion result cqe.res, and
the bytes the kernel wrote into the buffer).  The run produces a trace of
observable events (resource operations, stream output, diagnostics) together
with the exit status; the list of iteration records serves as fuel, so a run
that exhausts it reports no exit status instead of looping forever.

Machine integers: cqe.res is a signed 32-bit value and offset and the running
total are signed 64-bit values in the C source; none of the modelled
scenarios approaches either bound, so they are embedded as Int without
wrap-around.
-/

namespace Eproxy

/-- EXIT_SUCCESS constant from main.c. -/
def EXIT_SUCCESS : Int := 0

/-- EXIT_ERROR constant from main.c. -/
def EXIT_ERROR : Int := 1

/-- Linux errno value ENOBUFS, checked by main.c as cqe.res == -ENOBUFS. -/
def ENOBUFS : Int := 105

/-- CUSTOM_BLOCK_SIZE constant from main.c (1024 * 4). -/
def CUSTOM_BLOCK_SIZE : Nat := 1024 * 4

/-- QUEUE_DEPTH constant from main.c. -/
def QUEUE_DEPTH : Nat := 2

/-- Diagnostic messages written to stderr, one constructor per fprintf or
perror call site in main.c. -/
inductive Diag where
  | usage (prog : String)
  | queueInitFailed (e : Int)
  | openFailed
  | cannotGetSqe (fd : Int)
  | submitError (e : Int)
  | waitCqeError (e : Int)
  | readFailedNoBufs (e : Int)
  | readFailed (e : Int)
deriving DecidableEq

/-- Text of each diagnostic, parametrised by the rendering of strerror.
The format strings are those of the fprintf calls in main.c; perror("open")
prints the string "open" followed by the errno text supplied by libc. -/
def diagText (strerror : Int → String) : Diag → String
  | Diag.usage prog => "Usage: " ++ prog ++ " <filename>\n"
  | Diag.queueInitFailed e => "io_uring_queue_init failed " ++ strerror (-e) ++ "\n"
  | Diag.openFailed => "open"
  | Diag.cannotGetSqe fd => "Cannot get sqe " ++ toString fd
  | Diag.submitError e => "io_uring_submit error " ++ strerror (-e) ++ "\n"
  | Diag.waitCqeError e => "io_uring_wait_cqe error " ++ strerror (-e) ++ "\n"
  | Diag.readFailedNoBufs e => "read failed " ++ strerror (-e) ++ ". out of buffers? \n"
  | Diag.readFailed e => "read failed " ++ strerror (-e) ++ "\n"

/-- Observable events of a run, in program order: resource operations,
the per-iteration loop boundary marker carrying the current offset and
total, stdout output, and stderr diagnostics. -/
inductive Ev where
  | queueInit
  | queueExit
  | openFile
  | closeFile
  | submit
  | observed (res : Int)
  | cqeSeen
  | boundary (offset total : Int)
  | outHeader (filename : String)
  | outChunk (bytes : List Nat)
  | outTotal (total : Int)
  | err (d : Diag)
deriving DecidableEq

/-- What the external calls of one loop iteration return: whether
io_uring_get_sqe yields a slot, the return values of io_uring_submit and
io_uring_wait_cqe, the completion result cqe.res, and the bytes the kernel
wrote at the start of the buffer for this read. -/
structure IterEnv where
  sqe_ok : Bool
  submit_ret : Int
  wait_ret : Int
  cqe_res : Int
  data : List Nat
deriving DecidableEq

/-- Kernel write of the freshly read bytes into the front of the reused
buffer; the rest of the buffer keeps its previous contents. -/
def writeBuf (data buf : List Nat) : List Nat :=
  data ++ buf.drop data.length

/-- Bytes emitted by printf("%.*s", (int)n, buffer): at most n bytes from
the start of the buffer, stopping at the first NUL byte. -/
def printfChunk (n : Int) (buf : List Nat) : List Nat :=
  (buf.take n.toNat).takeWhile (fun b => b != 0)

/-- How the while loop in main.c ended: an early return with an exit code,
the break on a zero-byte completion, or exhaustion of the iteration fuel. -/
inductive LoopRes where
  | exited (code : Int)
  | broke
  | fuel
deriving DecidableEq

/-- The while loop of main.c.  Arguments: descriptor, fuel list of
iteration environments, current offset, current bytes_read_total, current
buffer contents.  Returns the event trace of the loop, the final
bytes_read_total, and how the loop ended.  A boundary event carrying the
current offset and total is recorded at the top of each iteration. -/
def readLoop (fd : Int) : List IterEnv → Int → Int → List Nat →
    List Ev × Int × LoopRes
  | [], off, tot, _ => ([Ev.boundary off tot], tot, LoopRes.fuel)
  | e :: rest, off, tot, buf =>
    if e.sqe_ok = false then
      ([Ev.boundary off tot, Ev.err (Diag.cannotGetSqe fd),
        Ev.closeFile, Ev.queueExit], tot, LoopRes.exited EXIT_ERROR)
    else if e.submit_ret < 0 then
      ([Ev.boundary off tot, Ev.submit, Ev.err (Diag.submitError e.submit_ret),
        Ev.closeFile, Ev.queueExit], tot, LoopRes.exited EXIT_ERROR)
    else if e.wait_ret < 0 then
      ([Ev.boundary off tot, Ev.submit, Ev.err (Diag.waitCqeError e.wait_ret),
        Ev.closeFile, Ev.queueExit], tot, LoopRes.exited EXIT_ERROR)
    else if e.cqe_res < 0 then
      ([Ev.boundary off tot, Ev.submit, Ev.observed e.cqe_res,
        Ev.err (if e.cqe_res = -ENOBUFS then Diag.readFailedNoBufs e.cqe_res
                else Diag.readFailed e.cqe_res),
        Ev.cqeSeen, Ev.closeFile, Ev.queueExit], tot, LoopRes.exited EXIT_ERROR)
    else if e.cqe_res = 0 then
      ([Ev.boundary off tot, Ev.submit, Ev.observed e.cqe_res, Ev.cqeSeen],
       tot, LoopRes.broke)
    else
      let buf2 := writeBuf e.data buf
      let later := readLoop fd rest (off + e.cqe_res) (tot + e.cqe_res) buf2
      (Ev.boundary off tot :: Ev.submit :: Ev.observed e.cqe_res ::
         Ev.outChunk (printfChunk e.cqe_res buf2) :: Ev.cqeSeen :: later.1,
       later.2)

/-- The main function of main.c.  Arguments: argv[0], the remaining argv
entries, the return value of io_uring_queue_init, the return value of open,
the initial (indeterminate) buffer contents, and the per-iteration
environments.  Returns the event trace and the exit status, or none if the
iteration fuel ran out inside the loop. -/
def runMain (prog : String) (args : List String)
    (queue_init_ret open_ret : Int) (buf0 : List Nat) (envs : List IterEnv) :
    List Ev × Option Int :=
  match args with
  | [] => ([Ev.err (Diag.usage prog)], some EXIT_ERROR)
  | filename :: _ =>
    if queue_init_ret < 0 then
      ([Ev.err (Diag.queueInitFailed queue_init_ret)], some EXIT_ERROR)
    else if open_ret < 0 then
      ([Ev.queueInit, Ev.err Diag.openFailed, Ev.queueExit], some EXIT_ERROR)
    else
      let res := readLoop open_ret envs 0 0 buf0
      let pre := [Ev.queueInit, Ev.openFile, Ev.outHeader filename]
      match res.2.2 with
      | LoopRes.exited c => (pre ++ res.1, some c)
      | LoopRes.broke =>
          (pre ++ res.1 ++ [Ev.outTotal res.2.1, Ev.closeFile, Ev.queueExit],
           some EXIT_SUCCESS)
      | LoopRes.fuel => (pre ++ res.1, none)

/-- Text of the final stdout line printf("total bytes read %zd\n", t). -/
def totalLineText (t : Int) : String :=
  "total bytes read " ++ toString t ++ "\n"

/-- Iteration environment of a successful 1-byte read delivering byte b:
a submission slot is available, submit and wait succeed, cqe.res = 1. -/
def succEnv (b : Nat) : IterEnv := ⟨true, 1, 0, 1, [b]⟩

/-- Iteration environment of the end-of-file completion: cqe.res = 0. -/
def eofEnv : IterEnv := ⟨true, 1, 0, 0, []⟩

/-- Iteration environments produced by a kernel serving a file with the
given byte contents to a reader that requests 1 byte at offsets 0, 1, 2, …:
one successful read per byte, then a zero completion. -/
def fileEnvs (content : List Nat) : List IterEnv :=
  content.map succEnv ++ [eofEnv]

/-- A complete run of main.c on a file with the given contents, with queue
initialisation and open succeeding (descriptor 3). -/
def runFile (prog filename : String) (buf0 : List Nat) (content : List Nat) :
    List Ev × Option Int :=
  runMain prog [filename] 0 3 buf0 (fileEnvs content)

/-- Completion result carried by an observed event, if any. -/
def obsVal : Ev → Option Int
  | Ev.observed r => some r
  | _ => none

/-- Completion results observed during a trace, in order. -/
def obsList (tr : List Ev) : List Int := tr.filterMap obsVal

/-- Offset and total carried by a boundary event, if any. -/
def bndVal : Ev → Option (Int × Int)
  | Ev.boundary o t => some (o, t)
  | _ => none

/-- Loop boundary states of a trace, in order. -/
def bndList (tr : List Ev) : List (Int × Int) := tr.filterMap bndVal

/-- Bytes carried by a chunk-output event, if any. -/
def chunkVal : Ev → Option (List Nat)
  | Ev.outChunk bs => some bs
  | _ => none

/-- Concatenation of all file-content bytes a trace emits to stdout. -/
def emitted (tr : List Ev) : List Nat := (tr.filterMap chunkVal).flatten

/-- Sum of the completion results observed in a trace. -/
def sumObs (tr : List Ev) : Int := (obsList tr).sum

/-- Whether an event writes to stdout. -/
def isStdout : Ev → Bool
  | Ev.outHeader _ => true
  | Ev.outChunk _ => true
  | Ev.outTotal _ => true
  | _ => false

/-- Stdout events of a trace, in order. -/
def stdoutEvs (tr : List Ev) : List Ev := tr.filter isStdout

/-- Whether an event is the close of the file descriptor. -/
def isClose : Ev → Bool
  | Ev.closeFile => true
  | _ => false

/-- Whether an event is the teardown of the ring. -/
def isQExit : Ev → Bool
  | Ev.queueExit => true
  | _ => false

/-- Whether an event is the initialisation of the ring. -/
def isQInit : Ev → Bool
  | Ev.queueInit => true
  | _ => false

/-- Whether an event is the opening of the file descriptor. -/
def isOpen : Ev → Bool
  | Ev.openFile => true
  | _ => false

/-- Whether an event is the total-line output. -/
def isTotal : Ev → Bool
  | Ev.outTotal _ => true
  | _ => false

/-- Whether an event belongs to the submit / observe / acknowledge
projection used to state the completion-queue accounting property. -/
def isSOS : Ev → Bool
  | Ev.submit => true
  | Ev.observed _ => true
  | Ev.cqeSeen => true
  | _ => false

/-- Submission, observation and acknowledgment events of a trace. -/
def sosList (tr : List Ev) : List Ev := tr.filter isSOS

/-- Model of the indeterminate initial contents of the 4096-byte stack
buffer in concrete runs. -/
def buf0c : List Nat := List.replicate CUSTOM_BLOCK_SIZE 0

/-- Iteration environment in which slot acquisition, submission and wait
all succeed and the completion carries result r. -/
def envR (r : Int) : IterEnv := ⟨true, 1, 0, r, []⟩

/-- Iteration environment in which io_uring_get_sqe yields no slot. -/
def noSqeEnv : IterEnv := ⟨false, 0, 0, 0, []⟩

/-- Iteration environment in which io_uring_submit returns the negative
value e. -/
def submitFailEnv (e : Int) : IterEnv := ⟨true, e, 0, 0, []⟩

/-- Iteration environment in which io_uring_wait_cqe returns the negative
value e. -/
def waitFailEnv (e : Int) : IterEnv := ⟨true, 1, e, 0, []⟩

theorem readLoop_nil (fd off tot : Int) (buf : List Nat) :
    readLoop fd [] off tot buf = ([Ev.boundary off tot], tot, LoopRes.fuel) := rfl

theorem readLoop_cons_nosqe (fd : Int) (e : IterEnv) (rest : List IterEnv)
    (off tot : Int) (buf : List Nat) (h1 : e.sqe_ok = false) :
    readLoop fd (e :: rest) off tot buf =
      ([Ev.boundary off tot, Ev.err (Diag.cannotGetSqe fd), Ev.closeFile,
        Ev.queueExit], tot, LoopRes.exited EXIT_ERROR) := by
  simp [readLoop, h1]

theorem readLoop_cons_nosubmit (fd : Int) (e : IterEnv) (rest : List IterEnv)
    (off tot : Int) (buf : List Nat) (h1 : e.sqe_ok = true)
    (h2 : e.submit_ret < 0) :
    readLoop fd (e :: rest) off tot buf =
      ([Ev.boundary off tot, Ev.submit, Ev.err (Diag.submitError e.submit_ret),
        Ev.closeFile, Ev.queueExit], tot, LoopRes.exited EXIT_ERROR) := by
  simp [readLoop, h1, h2]

theorem readLoop_cons_nowait (fd : Int) (e : IterEnv) (rest : List IterEnv)
    (off tot : Int) (buf : List Nat) (h1 : e.sqe_ok = true)
    (h2 : 0 ≤ e.submit_ret) (h3 : e.wait_ret < 0) :
    readLoop fd (e :: rest) off tot buf =
      ([Ev.boundary off tot, Ev.submit, Ev.err (Diag.waitCqeError e.wait_ret),
        Ev.closeFile, Ev.queueExit], tot, LoopRes.exited EXIT_ERROR) := by
  have h2n : ¬ e.submit_ret < 0 := not_lt.mpr h2
  simp [readLoop, h1, h2n, h3]

theorem readLoop_cons_err (fd : Int) (e : IterEnv) (rest : List IterEnv)
    (off tot : Int) (buf : List Nat) (h1 : e.sqe_ok = true)
    (h2 : 0 ≤ e.submit_ret) (h3 : 0 ≤ e.wait_ret) (h4 : e.cqe_res < 0) :
    readLoop fd (e :: rest) off tot buf =
      ([Ev.boundary off tot, Ev.submit, Ev.observed e.cqe_res,
        Ev.err (if e.cqe_res = -ENOBUFS then Diag.readFailedNoBufs e.cqe_res
                else Diag.readFailed e.cqe_res),
        Ev.cqeSeen, Ev.closeFile, Ev.queueExit], tot,
       LoopRes.exited EXIT_ERROR) := by
  have h2n : ¬ e.submit_ret < 0 := not_lt.mpr h2
  have h3n : ¬ e.wait_ret < 0 := not_lt.mpr h3
  simp [readLoop, h1, h2n, h3n, h4]

theorem readLoop_cons_eof (fd : Int) (e : IterEnv) (rest : List IterEnv)
    (off tot : Int) (buf : List Nat) (h1 : e.sqe_ok = true)
    (h2 : 0 ≤ e.submit_ret) (h3 : 0 ≤ e.wait_ret) (h4 : e.cqe_res = 0) :
    readLoop fd (e :: rest) off tot buf =
      ([Ev.boundary off tot, Ev.submit, Ev.observed e.cqe_res, Ev.cqeSeen],
       tot, LoopRes.broke) := by
  have h2n : ¬ e.submit_ret < 0 := not_lt.mpr h2
  have h3n : ¬ e.wait_ret < 0 := not_lt.mpr h3
  have h4n : ¬ e.cqe_res < 0 := by omega
  simp [readLoop, h1, h2n, h3n, h4n, h4]

theorem readLoop_cons_success (fd : Int) (e : IterEnv) (rest : List IterEnv)
    (off tot : Int) (buf : List Nat) (h1 : e.sqe_ok = true)
    (h2 : 0 ≤ e.submit_ret) (h3 : 0 ≤ e.wait_ret) (h4 : 0 < e.cqe_res) :
    readLoop fd (e :: rest) off tot buf =
      (Ev.boundary off tot :: Ev.submit :: Ev.observed e.cqe_res ::
         Ev.outChunk (printfChunk e.cqe_res (writeBuf e.data buf)) ::
         Ev.cqeSeen ::
         (readLoop fd rest (off + e.cqe_res) (tot + e.cqe_res)
            (writeBuf e.data buf)).1,
       (readLoop fd rest (off + e.cqe_res) (tot + e.cqe_res)
          (writeBuf e.data buf)).2) := by
  have h2n : ¬ e.submit_ret < 0 := not_lt.mpr h2
  have h3n : ¬ e.wait_ret < 0 := not_lt.mpr h3
  have h4n : ¬ e.cqe_res < 0 := by omega
  have h4z : ¬ e.cqe_res = 0 := by omega
  simp [readLoop, h1, h2n, h3n, h4n, h4z]

theorem readLoop_file_spec (content : List Nat) :
    ∀ (fd off tot : Int) (buf : List Nat),
      (readLoop fd (fileEnvs content) off tot buf).2 =
        (tot + content.length, LoopRes.broke) ∧
      obsList (readLoop fd (fileEnvs content) off tot buf).1 =
        List.replicate content.length 1 ++ [0] ∧
      emitted (readLoop fd (fileEnvs content) off tot buf).1 =
        content.filter (fun b => b != 0) := by
  induction content with
  | nil =>
    intro fd off tot buf
    rw [show fileEnvs [] = [eofEnv] from rfl,
        readLoop_cons_eof fd eofEnv [] off tot buf rfl (by decide) (by decide)
          rfl]
    simp [obsList, emitted, obsVal, chunkVal, eofEnv]
  | cons b rest ih =>
    intro fd off tot buf
    have hstep : fileEnvs (b :: rest) = succEnv b :: fileEnvs rest := by
      simp [fileEnvs]
    rw [hstep, readLoop_cons_success fd (succEnv b) (fileEnvs rest) off tot buf
          rfl (by simp [succEnv]) (by simp [succEnv]) (by simp [succEnv])]
    have hb1 : (succEnv b).cqe_res = 1 := rfl
    have hdata : (succEnv b).data = [b] := rfl
    have hbuf : writeBuf [b] buf = b :: buf.drop 1 := by
      simp [writeBuf]
    rw [hb1, hdata, hbuf]
    have hchunk : printfChunk 1 (b :: buf.drop 1) =
        if b != 0 then [b] else [] := by
      by_cases hb : b = 0
      · simp [printfChunk, hb]
      · have hbn : (b != 0) = true := by simpa using hb
        simp [printfChunk, hbn, List.takeWhile_cons]
    obtain ⟨ih1, ih2, ih3⟩ := ih fd (off + 1) (tot + 1) (b :: buf.drop 1)
    refine ⟨?_, ?_, ?_⟩
    · rw [ih1]
      congr 1
      push_cast [List.length_cons]
      ring
    · simp only [obsList, List.filterMap_cons, obsVal]
      simp only [obsList] at ih2
      rw [ih2]
      simp [List.replicate_succ]
    · simp only [emitted, List.filterMap_cons, chunkVal, hchunk,
        List.flatten_cons]
      simp only [emitted] at ih3
      rw [ih3]
      by_cases hb : (b != 0) = true
      · simp [hb, List.filter_cons]
      · simp only [List.filter_cons, hb]
        simp at hb
        simp [hb]

theorem readLoop_exit_shape (envs : List IterEnv) :
    ∀ (fd off tot : Int) (buf : List Nat),
      ((readLoop fd envs off tot buf).1.countP isTotal = 0) ∧
      ((readLoop fd envs off tot buf).1.countP isQInit = 0) ∧
      ((readLoop fd envs off tot buf).1.countP isOpen = 0) ∧
      (∀ c, (readLoop fd envs off tot buf).2.2 = LoopRes.exited c →
        c = EXIT_ERROR ∧
        (readLoop fd envs off tot buf).1.countP isClose = 1 ∧
        (readLoop fd envs off tot buf).1.countP isQExit = 1) ∧
      ((readLoop fd envs off tot buf).2.2 = LoopRes.broke →
        (readLoop fd envs off tot buf).1.countP isClose = 0 ∧
        (readLoop fd envs off tot buf).1.countP isQExit = 0) ∧
      ((readLoop fd envs off tot buf).2.2 = LoopRes.fuel →
        (readLoop fd envs off tot buf).1.countP isClose = 0 ∧
        (readLoop fd envs off tot buf).1.countP isQExit = 0) := by
  induction envs with
  | nil =>
    intro fd off tot buf
    simp [readLoop_nil, isTotal, isQInit, isOpen, isClose, isQExit]
  | cons e rest ih =>
    intro fd off tot buf
    cases hsq : e.sqe_ok with
    | false =>
      rw [readLoop_cons_nosqe fd e rest off tot buf hsq]
      simp [List.countP_cons, isTotal, isQInit, isOpen, isClose, isQExit]
    | true =>
      by_cases h2 : e.submit_ret < 0
      · rw [readLoop_cons_nosubmit fd e rest off tot buf hsq h2]
        simp [List.countP_cons, isTotal, isQInit, isOpen, isClose, isQExit]
      · have h2p : 0 ≤ e.submit_ret := not_lt.mp h2
        by_cases h3 : e.wait_ret < 0
        · rw [readLoop_cons_nowait fd e rest off tot buf hsq h2p h3]
          simp [List.countP_cons, isTotal, isQInit, isOpen, isClose, isQExit]
        · have h3p : 0 ≤ e.wait_ret := not_lt.mp h3
          by_cases h4 : e.cqe_res < 0
          · rw [readLoop_cons_err fd e rest off tot buf hsq h2p h3p h4]
            simp [List.countP_cons, isTotal, isQInit, isOpen, isClose,
              isQExit]
          · by_cases h5 : e.cqe_res = 0
            · rw [readLoop_cons_eof fd e rest off tot buf hsq h2p h3p h5]
              simp [List.countP_cons, isTotal, isQInit, isOpen, isClose,
                isQExit]
            · have h4p : 0 < e.cqe_res := by omega
              rw [readLoop_cons_success fd e rest off tot buf hsq h2p h3p h4p]
              obtain ⟨i1, i2, i3, i4, i5, i6⟩ :=
                ih fd (off + e.cqe_res) (tot + e.cqe_res) (writeBuf e.data buf)
              simp only [List.countP_cons, isTotal, isQInit, isOpen, isClose,
                isQExit, i1, i2, i3]
              refine ⟨rfl, rfl, rfl, ?_, ?_, ?_⟩
              · intro c hc
                obtain ⟨j1, j2, j3⟩ := i4 c hc
                simp [j2, j3, isClose, isQExit, j1]
              · intro hc
                obtain ⟨j1, j2⟩ := i5 hc
                simp [j1, j2, isClose, isQExit]
              · intro hc
                obtain ⟨j1, j2⟩ := i6 hc
                simp [j1, j2, isClose, isQExit]

theorem readLoop_sos (envs : List IterEnv) :
    ∀ (fd off tot : Int) (buf : List Nat),
      ∃ (rs : List Int) (tail : List Ev),
        sosList (readLoop fd envs off tot buf).1 =
          (rs.map fun r => [Ev.submit, Ev.observed r, Ev.cqeSeen]).flatten
            ++ tail ∧
        (tail = [] ∨ tail = [Ev.submit]) := by
  induction envs with
  | nil =>
    intro fd off tot buf
    exact ⟨[], [], by simp [readLoop_nil, sosList, isSOS], Or.inl rfl⟩
  | cons e rest ih =>
    intro fd off tot buf
    cases hsq : e.sqe_ok with
    | false =>
      rw [readLoop_cons_nosqe fd e rest off tot buf hsq]
      exact ⟨[], [], by simp [sosList, isSOS], Or.inl rfl⟩
    | true =>
      by_cases h2 : e.submit_ret < 0
      · rw [readLoop_cons_nosubmit fd e rest off tot buf hsq h2]
        exact ⟨[], [Ev.submit], by simp [sosList, isSOS], Or.inr rfl⟩
      · have h2p : 0 ≤ e.submit_ret := not_lt.mp h2
        by_cases h3 : e.wait_ret < 0
        · rw [readLoop_cons_nowait fd e rest off tot buf hsq h2p h3]
          exact ⟨[], [Ev.submit], by simp [sosList, isSOS], Or.inr rfl⟩
        · have h3p : 0 ≤ e.wait_ret := not_lt.mp h3
          by_cases h4 : e.cqe_res < 0
          · rw [readLoop_cons_err fd e rest off tot buf hsq h2p h3p h4]
            exact ⟨[e.cqe_res], [], by simp [sosList, isSOS], Or.inl rfl⟩
          · by_cases h5 : e.cqe_res = 0
            · rw [readLoop_cons_eof fd e rest off tot buf hsq h2p h3p h5]
              exact ⟨[e.cqe_res], [], by simp [sosList, isSOS], Or.inl rfl⟩
            · have h4p : 0 < e.cqe_res := by omega
              rw [readLoop_cons_success fd e rest off tot buf hsq h2p h3p h4p]
              obtain ⟨rs, tail, hs, ht⟩ :=
                ih fd (off + e.cqe_res) (tot + e.cqe_res) (writeBuf e.data buf)
              refine ⟨e.cqe_res :: rs, tail, ?_, ht⟩
              simp [sosList, isSOS, List.filter_cons]
              simp only [sosList] at hs
              rw [hs]

theorem readLoop_bnd (envs : List IterEnv) :
    ∀ (fd off tot : Int) (buf : List Nat),
      (bndList (readLoop fd envs off tot buf).1).head? = some (off, tot) ∧
      (∀ p ∈ bndList (readLoop fd envs off tot buf).1,
        off ≤ p.1 ∧ tot ≤ p.2 ∧ p.1 - off = p.2 - tot) ∧
      List.Pairwise (fun a b => a.1 ≤ b.1)
        (bndList (readLoop fd envs off tot buf).1) := by
  induction envs with
  | nil =>
    intro fd off tot buf
    simp [readLoop_nil, bndList, bndVal]
  | cons e rest ih =>
    intro fd off tot buf
    cases hsq : e.sqe_ok with
    | false =>
      rw [readLoop_cons_nosqe fd e rest off tot buf hsq]
      simp [bndList, bndVal]
    | true =>
      by_cases h2 : e.submit_ret < 0
      · rw [readLoop_cons_nosubmit fd e rest off tot buf hsq h2]
        simp [bndList, bndVal]
      · have h2p : 0 ≤ e.submit_ret := not_lt.mp h2
        by_cases h3 : e.wait_ret < 0
        · rw [readLoop_cons_nowait fd e rest off tot buf hsq h2p h3]
          simp [bndList, bndVal]
        · have h3p : 0 ≤ e.wait_ret := not_lt.mp h3
          by_cases h4 : e.cqe_res < 0
          · rw [readLoop_cons_err fd e rest off tot buf hsq h2p h3p h4]
            simp [bndList, bndVal]
          · by_cases h5 : e.cqe_res = 0
            · rw [readLoop_cons_eof fd e rest off tot buf hsq h2p h3p h5]
              simp [bndList, bndVal]
            · have h4p : 0 < e.cqe_res := by omega
              rw [readLoop_cons_success fd e rest off tot buf hsq h2p h3p h4p]
              obtain ⟨i1, i2, i3⟩ :=
                ih fd (off + e.cqe_res) (tot + e.cqe_res) (writeBuf e.data buf)
              simp only [bndList, List.filterMap_cons, bndVal]
              simp only [bndList] at i1 i2 i3
              refine ⟨by simp, ?_, ?_⟩
              · intro p hp
                rcases List.mem_cons.mp hp with hp | hp
                · subst hp; simp
                · obtain ⟨j1, j2, j3⟩ := i2 p hp
                  refine ⟨by omega, by omega, by omega⟩
              · rw [List.pairwise_cons]
                refine ⟨?_, i3⟩
                intro p hp
                obtain ⟨j1, j2, j3⟩ := i2 p hp
                simp
                omega

theorem peel_ne (x : Ev) (l pre post : List Ev) (o t : Int)
    (hx : ∀ a b : Int, x ≠ Ev.boundary a b)
    (h : x :: l = pre ++ Ev.boundary o t :: post) :
    ∃ pre2, pre = x :: pre2 ∧ l = pre2 ++ Ev.boundary o t :: post := by
  cases pre with
  | nil =>
    simp only [List.nil_append, List.cons.injEq] at h
    exact absurd h.1 (hx o t)
  | cons y pre2 =>
    simp only [List.cons_append, List.cons.injEq] at h
    exact ⟨pre2, by rw [h.1], h.2⟩

theorem peel_bnd (l pre post : List Ev) (o t off tot : Int)
    (h : Ev.boundary off tot :: l = pre ++ Ev.boundary o t :: post) :
    (pre = [] ∧ o = off ∧ t = tot ∧ post = l) ∨
    (∃ pre2, pre = Ev.boundary off tot :: pre2 ∧
      l = pre2 ++ Ev.boundary o t :: post) := by
  cases pre with
  | nil =>
    simp only [List.nil_append, List.cons.injEq, Ev.boundary.injEq] at h
    exact Or.inl ⟨rfl, h.1.1.symm, h.1.2.symm, h.2.symm⟩
  | cons y pre2 =>
    simp only [List.cons_append, List.cons.injEq] at h
    exact Or.inr ⟨pre2, by rw [h.1], h.2⟩

theorem no_bnd_split (l pre post : List Ev) (o t : Int)
    (hl : Ev.boundary o t ∉ l)
    (h : l = pre ++ Ev.boundary o t :: post) : False := by
  apply hl
  rw [h]
  simp

theorem readLoop_split (envs : List IterEnv) :
    ∀ (fd off tot : Int) (buf : List Nat) (pre post : List Ev) (o t : Int),
      (readLoop fd envs off tot buf).1 = pre ++ Ev.boundary o t :: post →
      o = off + sumObs pre ∧ t = tot + sumObs pre ∧
      (∀ r ∈ obsList pre, 0 < r) := by
  induction envs with
  | nil =>
    intro fd off tot buf pre post o t h
    rw [readLoop_nil] at h
    rcases peel_bnd [] pre post o t off tot h with
      ⟨hp, ho, ht, _⟩ | ⟨pre2, _, h2⟩
    · subst hp; subst ho; subst ht
      simp [sumObs, obsList]
    · exact absurd h2 (fun hh => no_bnd_split [] pre2 post o t (by simp) hh)
  | cons e rest ih =>
    intro fd off tot buf pre post o t h
    cases hsq : e.sqe_ok with
    | false =>
      rw [readLoop_cons_nosqe fd e rest off tot buf hsq] at h
      rcases peel_bnd _ pre post o t off tot h with
        ⟨hp, ho, ht, _⟩ | ⟨pre2, _, h2⟩
      · subst hp; subst ho; subst ht
        simp [sumObs, obsList]
      · exact absurd h2 (fun hh =>
          no_bnd_split _ pre2 post o t (by simp) hh)
    | true =>
      by_cases h2c : e.submit_ret < 0
      · rw [readLoop_cons_nosubmit fd e rest off tot buf hsq h2c] at h
        rcases peel_bnd _ pre post o t off tot h with
          ⟨hp, ho, ht, _⟩ | ⟨pre2, _, h2⟩
        · subst hp; subst ho; subst ht
          simp [sumObs, obsList]
        · exact absurd h2 (fun hh =>
            no_bnd_split _ pre2 post o t (by simp) hh)
      · have h2p : 0 ≤ e.submit_ret := not_lt.mp h2c
        by_cases h3c : e.wait_ret < 0
        · rw [readLoop_cons_nowait fd e rest off tot buf hsq h2p h3c] at h
          rcases peel_bnd _ pre post o t off tot h with
            ⟨hp, ho, ht, _⟩ | ⟨pre2, _, h2⟩
          · subst hp; subst ho; subst ht
            simp [sumObs, obsList]
          · exact absurd h2 (fun hh =>
              no_bnd_split _ pre2 post o t (by simp) hh)
        · have h3p : 0 ≤ e.wait_ret := not_lt.mp h3c
          by_cases h4c : e.cqe_res < 0
          · rw [readLoop_cons_err fd e rest off tot buf hsq h2p h3p h4c] at h
            rcases peel_bnd _ pre post o t off tot h with
              ⟨hp, ho, ht, _⟩ | ⟨pre2, _, h2⟩
            · subst hp; subst ho; subst ht
              simp [sumObs, obsList]
            · exact absurd h2 (fun hh =>
                no_bnd_split _ pre2 post o t (by simp) hh)
          · by_cases h5c : e.cqe_res = 0
            · rw [readLoop_cons_eof fd e rest off tot buf hsq h2p h3p h5c] at h
              rcases peel_bnd _ pre post o t off tot h with
                ⟨hp, ho, ht, _⟩ | ⟨pre2, _, h2⟩
              · subst hp; subst ho; subst ht
                simp [sumObs, obsList]
              · exact absurd h2 (fun hh =>
                  no_bnd_split _ pre2 post o t (by simp) hh)
            · have h4p : 0 < e.cqe_res := by omega
              rw [readLoop_cons_success fd e rest off tot buf hsq h2p h3p
                h4p] at h
              rcases peel_bnd _ pre post o t off tot h with
                ⟨hp, ho, ht, _⟩ | ⟨pre2, hpre, hsp⟩
              · subst hp; subst ho; subst ht
                simp [sumObs, obsList]
              · obtain ⟨pre3, hpre3, hsp⟩ := peel_ne Ev.submit _ _ _ o t
                  (by intro a b; simp) hsp
                obtain ⟨pre4, hpre4, hsp⟩ := peel_ne (Ev.observed e.cqe_res)
                  _ _ _ o t (by intro a b; simp) hsp
                obtain ⟨pre5, hpre5, hsp⟩ := peel_ne
                  (Ev.outChunk (printfChunk e.cqe_res (writeBuf e.data buf)))
                  _ _ _ o t (by intro a b; simp) hsp
                obtain ⟨pre6, hpre6, hsp⟩ := peel_ne Ev.cqeSeen _ _ _ o t
                  (by intro a b; simp) hsp
                obtain ⟨j1, j2, j3⟩ := ih fd (off + e.cqe_res)
                  (tot + e.cqe_res) (writeBuf e.data buf) pre6 post o t hsp
                subst hpre6; subst hpre5; subst hpre4; subst hpre3
                subst hpre
                refine ⟨?_, ?_, ?_⟩
                · simp only [sumObs, obsList, List.filterMap_cons, obsVal]
                  simp only [sumObs, obsList] at j1
                  rw [List.sum_cons]
                  omega
                · simp only [sumObs, obsList, List.filterMap_cons, obsVal]
                  simp only [sumObs, obsList] at j2
                  rw [List.sum_cons]
                  omega
                · intro r hr
                  simp only [obsList, List.filterMap_cons, obsVal,
                    List.mem_cons] at hr
                  rcases hr with hr | hr
                  · omega
                  · exact j3 r (by simpa [obsList] using hr)

theorem readLoop_err_run (rs : List Int) (ec : Int) :
    ∀ (fd off tot : Int) (buf : List Nat), (∀ r ∈ rs, 0 < r) → ec < 0 →
      (readLoop fd (rs.map envR ++ [envR ec]) off tot buf).2 =
        (tot + rs.sum, LoopRes.exited EXIT_ERROR) ∧
      Ev.err (if ec = -ENOBUFS then Diag.readFailedNoBufs ec
              else Diag.readFailed ec)
        ∈ (readLoop fd (rs.map envR ++ [envR ec]) off tot buf).1 := by
  induction rs with
  | nil =>
    intro fd off tot buf _ hec
    rw [List.map_nil, List.nil_append,
      readLoop_cons_err fd (envR ec) [] off tot buf rfl (by simp [envR])
        (by simp [envR]) hec]
    simp [envR]
  | cons r rs ih =>
    intro fd off tot buf hrs hec
    have hr : 0 < r := hrs r (by simp)
    rw [List.map_cons, List.cons_append,
      readLoop_cons_success fd (envR r) (rs.map envR ++ [envR ec]) off tot buf
        rfl (by simp [envR]) (by simp [envR]) hr]
    obtain ⟨j1, j2⟩ := ih fd (off + (envR r).cqe_res) (tot + (envR r).cqe_res)
      (writeBuf (envR r).data buf) (fun x hx => hrs x (by simp [hx])) hec
    refine ⟨?_, ?_⟩
    · rw [j1]
      have : (envR r).cqe_res = r := rfl
      rw [this, List.sum_cons]
      congr 1
      ring
    · simp only [List.mem_cons]
      right; right; right; right; right
      exact j2

theorem runMain_usage (prog : String) (qret oret : Int) (buf0 : List Nat)
    (envs : List IterEnv) :
    runMain prog [] qret oret buf0 envs =
      ([Ev.err (Diag.usage prog)], some EXIT_ERROR) := rfl

theorem runMain_qinit_fail (prog fn : String) (args : List String)
    (qret oret : Int) (buf0 : List Nat) (envs : List IterEnv)
    (h : qret < 0) :
    runMain prog (fn :: args) qret oret buf0 envs =
      ([Ev.err (Diag.queueInitFailed qret)], some EXIT_ERROR) := by
  simp [runMain, h]

theorem runMain_open_fail (prog fn : String) (args : List String)
    (qret oret : Int) (buf0 : List Nat) (envs : List IterEnv)
    (h1 : ¬ qret < 0) (h2 : oret < 0) :
    runMain prog (fn :: args) qret oret buf0 envs =
      ([Ev.queueInit, Ev.err Diag.openFailed, Ev.queueExit],
       some EXIT_ERROR) := by
  simp [runMain, h1, h2]

theorem runMain_exited (prog fn : String) (args : List String)
    (qret oret : Int) (buf0 : List Nat) (envs : List IterEnv) (c : Int)
    (h1 : ¬ qret < 0) (h2 : ¬ oret < 0)
    (hc : (readLoop oret envs 0 0 buf0).2.2 = LoopRes.exited c) :
    runMain prog (fn :: args) qret oret buf0 envs =
      ([Ev.queueInit, Ev.openFile, Ev.outHeader fn] ++
         (readLoop oret envs 0 0 buf0).1, some c) := by
  simp [runMain, h1, h2, hc]

theorem runMain_broke (prog fn : String) (args : List String)
    (qret oret : Int) (buf0 : List Nat) (envs : List IterEnv)
    (h1 : ¬ qret < 0) (h2 : ¬ oret < 0)
    (hc : (readLoop oret envs 0 0 buf0).2.2 = LoopRes.broke) :
    runMain prog (fn :: args) qret oret buf0 envs =
      ([Ev.queueInit, Ev.openFile, Ev.outHeader fn] ++
         (readLoop oret envs 0 0 buf0).1 ++
         [Ev.outTotal (readLoop oret envs 0 0 buf0).2.1, Ev.closeFile,
          Ev.queueExit], some EXIT_SUCCESS) := by
  simp [runMain, h1, h2, hc]

theorem runMain_fuel (prog fn : String) (args : List String)
    (qret oret : Int) (buf0 : List Nat) (envs : List IterEnv)
    (h1 : ¬ qret < 0) (h2 : ¬ oret < 0)
    (hc : (readLoop oret envs 0 0 buf0).2.2 = LoopRes.fuel) :
    runMain prog (fn :: args) qret oret buf0 envs =
      ([Ev.queueInit, Ev.openFile, Ev.outHeader fn] ++
         (readLoop oret envs 0 0 buf0).1, none) := by
  simp [runMain, h1, h2, hc]

theorem runFile_spec (prog fn : String) (buf0 : List Nat)
    (content : List Nat) :
    (runFile prog fn buf0 content).2 = some EXIT_SUCCESS ∧
    obsList (runFile prog fn buf0 content).1 =
      List.replicate content.length 1 ++ [0] ∧
    emitted (runFile prog fn buf0 content).1 =
      content.filter (fun b => b != 0) ∧
    Ev.outTotal (content.length : Int) ∈ (runFile prog fn buf0 content).1 ∧
    (runFile prog fn buf0 content).1.countP isTotal = 1 := by
  obtain ⟨f1, f2, f3⟩ := readLoop_file_spec content 3 0 0 buf0
  have hb : (readLoop 3 (fileEnvs content) 0 0 buf0).2.2 = LoopRes.broke := by
    rw [f1]
  have htot : (readLoop 3 (fileEnvs content) 0 0 buf0).2.1 =
      (content.length : Int) := by
    rw [f1]
    simp
  have hrun := runMain_broke prog fn [] 0 3 buf0 (fileEnvs content)
    (by norm_num) (by norm_num) hb
  rw [show runFile prog fn buf0 content =
        runMain prog [fn] 0 3 buf0 (fileEnvs content) from rfl, hrun]
  have hcnt := (readLoop_exit_shape (fileEnvs content) 3 0 0 buf0).1
  refine ⟨rfl, ?_, ?_, ?_, ?_⟩
  · simp only [obsList, List.filterMap_append, obsVal]
    simp only [obsList] at f2
    rw [f2]
    simp [obsVal]
  · simp only [emitted, List.filterMap_append, chunkVal]
    simp only [emitted] at f3
    simp only [List.flatten_append]
    rw [f3]
    simp [chunkVal]
  · rw [htot]
    simp
  · simp only [List.countP_append, hcnt, htot]
    simp [isTotal, List.countP_cons]

theorem runMain_split (prog : String) (args : List String) (qret oret : Int)
    (buf0 : List Nat) (envs : List IterEnv) (pre post : List Ev) (o t : Int)
    (h : (runMain prog args qret oret buf0 envs).1 =
      pre ++ Ev.boundary o t :: post) :
    o = sumObs pre ∧ t = sumObs pre ∧ ∀ r ∈ obsList pre, 0 < r := by
  cases args with
  | nil =>
    rw [runMain_usage] at h
    exact (no_bnd_split _ pre post o t (by simp) h).elim
  | cons fn args =>
    by_cases hq : qret < 0
    · rw [runMain_qinit_fail prog fn args qret oret buf0 envs hq] at h
      exact (no_bnd_split _ pre post o t (by simp) h).elim
    · by_cases ho : oret < 0
      · rw [runMain_open_fail prog fn args qret oret buf0 envs hq ho] at h
        exact (no_bnd_split _ pre post o t (by simp) h).elim
      · have main_of_loop : ∀ pre3 post3,
            (readLoop oret envs 0 0 buf0).1 =
              pre3 ++ Ev.boundary o t :: post3 →
            pre = Ev.queueInit :: Ev.openFile :: Ev.outHeader fn :: pre3 →
            o = sumObs pre ∧ t = sumObs pre ∧ ∀ r ∈ obsList pre, 0 < r := by
          intro pre3 post3 hl hpre
          obtain ⟨j1, j2, j3⟩ :=
            readLoop_split envs oret 0 0 buf0 pre3 post3 o t hl
          subst hpre
          refine ⟨?_, ?_, ?_⟩
          · simp only [sumObs, obsList, List.filterMap_cons, obsVal]
            simp only [sumObs, obsList] at j1
            omega
          · simp only [sumObs, obsList, List.filterMap_cons, obsVal]
            simp only [sumObs, obsList] at j2
            omega
          · intro r hr
            apply j3
            simpa [obsList, obsVal] using hr
        cases hres : (readLoop oret envs 0 0 buf0).2.2 with
        | exited c =>
          rw [runMain_exited prog fn args qret oret buf0 envs c hq ho hres]
            at h
          rw [show [Ev.queueInit, Ev.openFile, Ev.outHeader fn] ++
                (readLoop oret envs 0 0 buf0).1 =
              Ev.queueInit :: Ev.openFile :: Ev.outHeader fn ::
                (readLoop oret envs 0 0 buf0).1 from rfl] at h
          obtain ⟨p1, hp1, h⟩ := peel_ne _ _ _ _ o t (by intro a b; simp) h
          obtain ⟨p2, hp2, h⟩ := peel_ne _ _ _ _ o t (by intro a b; simp) h
          obtain ⟨p3, hp3, h⟩ := peel_ne _ _ _ _ o t (by intro a b; simp) h
          exact main_of_loop p3 post h (by rw [hp1, hp2, hp3])
        | fuel =>
          rw [runMain_fuel prog fn args qret oret buf0 envs hq ho hres] at h
          rw [show [Ev.queueInit, Ev.openFile, Ev.outHeader fn] ++
                (readLoop oret envs 0 0 buf0).1 =
              Ev.queueInit :: Ev.openFile :: Ev.outHeader fn ::
                (readLoop oret envs 0 0 buf0).1 from rfl] at h
          obtain ⟨p1, hp1, h⟩ := peel_ne _ _ _ _ o t (by intro a b; simp) h
          obtain ⟨p2, hp2, h⟩ := peel_ne _ _ _ _ o t (by intro a b; simp) h
          obtain ⟨p3, hp3, h⟩ := peel_ne _ _ _ _ o t (by intro a b; simp) h
          exact main_of_loop p3 post h (by rw [hp1, hp2, hp3])
        | broke =>
          rw [runMain_broke prog fn args qret oret buf0 envs hq ho hres] at h
          rw [List.append_assoc] at h
          rw [show [Ev.queueInit, Ev.openFile, Ev.outHeader fn] ++
                ((readLoop oret envs 0 0 buf0).1 ++
                 [Ev.outTotal (readLoop oret envs 0 0 buf0).2.1, Ev.closeFile,
                  Ev.queueExit]) =
              Ev.queueInit :: Ev.openFile :: Ev.outHeader fn ::
                ((readLoop oret envs 0 0 buf0).1 ++
                 [Ev.outTotal (readLoop oret envs 0 0 buf0).2.1, Ev.closeFile,
                  Ev.queueExit]) from rfl] at h
          obtain ⟨p1, hp1, h⟩ := peel_ne _ _ _ _ o t (by intro a b; simp) h
          obtain ⟨p2, hp2, h⟩ := peel_ne _ _ _ _ o t (by intro a b; simp) h
          obtain ⟨p3, hp3, h⟩ := peel_ne _ _ _ _ o t (by intro a b; simp) h
          rcases List.append_eq_append_iff.mp h with ⟨a2, ha1, ha2⟩ |
            ⟨c2, hc1, hc2⟩
          · exfalso
            have : Ev.boundary o t ∈
                [Ev.outTotal (readLoop oret envs 0 0 buf0).2.1, Ev.closeFile,
                 Ev.queueExit] := by
              rw [ha2]
              simp
            simp at this
          · cases c2 with
            | nil =>
              exfalso
              simp only [List.nil_append] at hc2
              have : Ev.boundary o t ∈
                  [Ev.outTotal (readLoop oret envs 0 0 buf0).2.1,
                   Ev.closeFile, Ev.queueExit] := by
                rw [← hc2]
                simp
              simp at this
            | cons x c3 =>
              simp only [List.cons_append, List.cons.injEq] at hc2
              obtain ⟨hx, -⟩ := hc2
              rw [← hx] at hc1
              exact main_of_loop p3 c3 hc1 (by rw [hp1, hp2, hp3])

/-- C7: reading an empty file yields exactly one completion, which is the
end-of-file completion (result code 0), with zero successful completions
observed, the total 0 reported on stdout, and exit status 0. -/
theorem c7_empty_file (prog fn : String) (buf0 : List Nat) :
    obsList (runFile prog fn buf0 []).1 = [0] ∧
    (obsList (runFile prog fn buf0 []).1).length = 1 ∧
    (obsList (runFile prog fn buf0 []).1).filter (fun r => decide (0 < r))
      = [] ∧
    Ev.outTotal 0 ∈ (runFile prog fn buf0 []).1 ∧
    (runFile prog fn buf0 []).2 = some 0 := by
  obtain ⟨f1, f2, f3, f4, -⟩ := runFile_spec prog fn buf0 []
  have h2 : obsList (runFile prog fn buf0 []).1 = [0] := by simpa using f2
  refine ⟨h2, by rw [h2]; rfl, by rw [h2]; decide, by simpa using f4, f1⟩

/-- C6 counterexample: the file whose single byte is 0 (a NUL byte) is not
reproduced on standard output; printf("%.*s", …) stops at the NUL byte, so
the run emits no content byte at all. -/
theorem c6_counterexample :
    emitted (runFile "p" "f" buf0c [0]).1 ≠ [0] := by
  obtain ⟨-, -, f3, -, -⟩ := runFile_spec "p" "f" buf0c [0]
  rw [f3]
  decide

/-- C6 amended: each successful 1-byte chunk is emitted to standard output
in file order, except that a NUL byte is dropped by the %.*s conversion, so
the emitted byte sequence equals the file bytes with NUL bytes removed, and
equals the file byte sequence exactly when the file contains no NUL byte. -/
theorem c6_stream (prog fn : String) (buf0 : List Nat)
    (content : List Nat) :
    emitted (runFile prog fn buf0 content).1 =
      content.filter (fun b => b != 0) ∧
    ((∀ b ∈ content, b ≠ 0) →
      emitted (runFile prog fn buf0 content).1 = content) := by
  obtain ⟨-, -, f3, -, -⟩ := runFile_spec prog fn buf0 content
  refine ⟨f3, fun h => ?_⟩
  rw [f3]
  exact List.filter_eq_self.mpr (fun a ha => by simpa using h a ha)

/-- Witness for c6_stream at the NUL-free file [72, 105]. -/
theorem c6_stream_witness :
    (∀ b ∈ [72, 105], b ≠ 0) ∧
    emitted (runFile "p" "f" buf0c [72, 105]).1 = [72, 105] :=
  ⟨by decide, (c6_stream "p" "f" buf0c [72, 105]).2 (by decide)⟩

/-- C8 counterexample: the 10-byte file of ten NUL bytes yields no emitted
content byte at all, so the run does not emit the 10 file bytes to standard
output. -/
theorem c8_counterexample :
    (List.replicate 10 0).length = 10 ∧
    emitted (runFile "p" "f" buf0c (List.replicate 10 0)).1 = [] ∧
    ([] : List Nat) ≠ List.replicate 10 0 := by
  obtain ⟨-, -, f3, -, -⟩ := runFile_spec "p" "f" buf0c (List.replicate 10 0)
  exact ⟨by decide, by rw [f3]; decide, by decide⟩

/-- C8 amended: reading a 10-byte file with the 1-byte-per-request sizing
produces exactly 11 completions, 10 of result 1 followed by 1 of result 0,
reports the summary line "total bytes read 10", and exits with status 0; the
emitted bytes are the file bytes with NUL bytes removed (printf %.*s
truncation), hence exactly the 10 file bytes in original order when none of
them is NUL. -/
theorem c8_ten_byte (prog fn : String) (buf0 : List Nat)
    (content : List Nat) (h10 : content.length = 10) :
    obsList (runFile prog fn buf0 content).1 =
      List.replicate 10 1 ++ [0] ∧
    (obsList (runFile prog fn buf0 content).1).length = 11 ∧
    emitted (runFile prog fn buf0 content).1 =
      content.filter (fun b => b != 0) ∧
    ((∀ b ∈ content, b ≠ 0) →
      emitted (runFile prog fn buf0 content).1 = content) ∧
    Ev.outTotal 10 ∈ (runFile prog fn buf0 content).1 ∧
    totalLineText 10 = "total bytes read 10\n" ∧
    (runFile prog fn buf0 content).2 = some 0 := by
  obtain ⟨f1, f2, f3, f4, -⟩ := runFile_spec prog fn buf0 content
  rw [h10] at f2 f4
  refine ⟨f2, by rw [f2]; rfl, f3, fun h => ?_, by simpa using f4, by decide,
    f1⟩
  rw [f3]
  exact List.filter_eq_self.mpr (fun a ha => by simpa using h a ha)

/-- Witness for c8_ten_byte at the NUL-free 10-byte file of bytes 2. -/
theorem c8_ten_byte_witness :
    (List.replicate 10 2).length = 10 ∧
    obsList (runFile "p" "f" buf0c (List.replicate 10 2)).1 =
      List.replicate 10 1 ++ [0] ∧
    (runFile "p" "f" buf0c (List.replicate 10 2)).2 = some 0 := by
  refine ⟨by decide, ?_, ?_⟩
  · exact (c8_ten_byte "p" "f" buf0c (List.replicate 10 2) (by decide)).1
  · exact (c8_ten_byte "p" "f" buf0c (List.replicate 10 2)
      (by decide)).2.2.2.2.2.2

/-- C2 counterexample: after two successful completions a completion with
result -5 terminates the run with exit status 1, and no total line is ever
written to standard output, so the partial total is not reported. -/
theorem c2_counterexample :
    (runMain "p" ["f"] 0 3 buf0c (List.map envR [1, 1] ++ [envR (-5)])).2 =
      some EXIT_ERROR ∧
    (List.countP isTotal
      (runMain "p" ["f"] 0 3 buf0c
        (List.map envR [1, 1] ++ [envR (-5)])).1) = 0 := by
  decide

/-- C2 amended: when a completion reports a negative result after k prior
successful completions, the loop terminates and the process exits with the
error status, the phase-identifying diagnostic is emitted, and the internal
accumulator holds the sum of the k successes, but the total line is not
written to standard output: the partial total is not reported on this path. -/
theorem c2_error_no_total (prog fn : String) (buf0 : List Nat)
    (rs : List Int) (ec : Int) (hrs : ∀ r ∈ rs, 0 < r) (hec : ec < 0) :
    (runMain prog [fn] 0 3 buf0 (rs.map envR ++ [envR ec])).2 =
      some EXIT_ERROR ∧
    Ev.err (if ec = -ENOBUFS then Diag.readFailedNoBufs ec
            else Diag.readFailed ec)
      ∈ (runMain prog [fn] 0 3 buf0 (rs.map envR ++ [envR ec])).1 ∧
    (List.countP isTotal
      (runMain prog [fn] 0 3 buf0 (rs.map envR ++ [envR ec])).1) = 0 ∧
    (readLoop 3 (rs.map envR ++ [envR ec]) 0 0 buf0).2.1 = rs.sum := by
  obtain ⟨j1, j2⟩ := readLoop_err_run rs ec 3 0 0 buf0 hrs hec
  have hex : (readLoop 3 (rs.map envR ++ [envR ec]) 0 0 buf0).2.2 =
      LoopRes.exited EXIT_ERROR := by
    rw [j1]
  have hrun := runMain_exited prog fn [] 0 3 buf0 (rs.map envR ++ [envR ec])
    EXIT_ERROR (by norm_num) (by norm_num) hex
  have hcnt := (readLoop_exit_shape (rs.map envR ++ [envR ec]) 3 0 0 buf0).1
  rw [hrun]
  refine ⟨rfl, ?_, ?_, ?_⟩
  · simp only [List.mem_append]
    right
    exact j2
  · simp only [List.countP_append, hcnt]
    simp [isTotal, List.countP_cons]
  · rw [j1]
    simp

/-- Witness for c2_error_no_total at two successes of 2 and 3 bytes followed
by a completion error -5. -/
theorem c2_error_no_total_witness :
    (∀ r ∈ [(2 : Int), 3], 0 < r) ∧ ((-5 : Int) < 0) ∧
    (runMain "p" ["f"] 0 3 buf0c (List.map envR [2, 3] ++ [envR (-5)])).2 =
      some EXIT_ERROR ∧
    (readLoop 3 (List.map envR [2, 3] ++ [envR (-5)]) 0 0 buf0c).2.1 =
      [(2 : Int), 3].sum := by
  refine ⟨by decide, by decide, ?_, ?_⟩
  · exact (c2_error_no_total "p" "f" buf0c [2, 3] (-5) (by decide)
      (by decide)).1
  · exact (c2_error_no_total "p" "f" buf0c [2, 3] (-5) (by decide)
      (by decide)).2.2.2

/-- C1: classification of the raw completion result delivered by the wait
step: a positive result is a successful read and the loop continues from the
advanced state; result 0 ends the loop normally as end-of-file; a negative
result is fatal and terminates the session with the error status, and the
diagnostic logged for -ENOBUFS is distinct — structurally and textually —
from the diagnostic logged for every other negative code. -/
theorem c1_decoder (fd : Int) (e : IterEnv) (rest : List IterEnv)
    (off tot : Int) (buf : List Nat) (strerror : Int → String)
    (h1 : e.sqe_ok = true) (h2 : 0 ≤ e.submit_ret) (h3 : 0 ≤ e.wait_ret) :
    (0 < e.cqe_res →
      readLoop fd (e :: rest) off tot buf =
        (Ev.boundary off tot :: Ev.submit :: Ev.observed e.cqe_res ::
           Ev.outChunk (printfChunk e.cqe_res (writeBuf e.data buf)) ::
           Ev.cqeSeen ::
           (readLoop fd rest (off + e.cqe_res) (tot + e.cqe_res)
              (writeBuf e.data buf)).1,
         (readLoop fd rest (off + e.cqe_res) (tot + e.cqe_res)
            (writeBuf e.data buf)).2)) ∧
    (e.cqe_res = 0 →
      readLoop fd (e :: rest) off tot buf =
        ([Ev.boundary off tot, Ev.submit, Ev.observed e.cqe_res, Ev.cqeSeen],
         tot, LoopRes.broke)) ∧
    (e.cqe_res < 0 →
      (readLoop fd (e :: rest) off tot buf).2.2 =
        LoopRes.exited EXIT_ERROR ∧
      Ev.err (if e.cqe_res = -ENOBUFS then Diag.readFailedNoBufs e.cqe_res
              else Diag.readFailed e.cqe_res)
        ∈ (readLoop fd (e :: rest) off tot buf).1) ∧
    (∀ a b : Int, Diag.readFailedNoBufs a ≠ Diag.readFailed b) ∧
    (∀ r : Int, diagText strerror (Diag.readFailedNoBufs r) ≠
      diagText strerror (Diag.readFailed r)) := by
  refine ⟨fun h4 => readLoop_cons_success fd e rest off tot buf h1 h2 h3 h4,
    fun h4 => readLoop_cons_eof fd e rest off tot buf h1 h2 h3 h4,
    fun h4 => ?_, by intro a b; simp, fun r heq => ?_⟩
  · rw [readLoop_cons_err fd e rest off tot buf h1 h2 h3 h4]
    exact ⟨rfl, by simp⟩
  · simp only [diagText] at heq
    have h := congrArg String.length heq
    simp only [String.length_append] at h
    have l1 : (". out of buffers? \n" : String).length = 19 := by decide
    have l2 : ("\n" : String).length = 1 := by decide
    rw [l1, l2] at h
    omega

/-- Witness for c1_decoder at a completion carrying the result -ENOBUFS. -/
theorem c1_decoder_witness :
    ((envR (-105)).sqe_ok = true) ∧ (0 ≤ (envR (-105)).submit_ret) ∧
    (0 ≤ (envR (-105)).wait_ret) ∧ ((envR (-105)).cqe_res < 0) ∧
    ((readLoop 3 [envR (-105)] 0 0 []).2.2 = LoopRes.exited EXIT_ERROR ∧
     Ev.err (if (envR (-105)).cqe_res = -ENOBUFS then
               Diag.readFailedNoBufs (envR (-105)).cqe_res
             else Diag.readFailed (envR (-105)).cqe_res)
       ∈ (readLoop 3 [envR (-105)] 0 0 []).1) := by
  refine ⟨rfl, by decide, by decide, by decide, ?_⟩
  exact (c1_decoder 3 (envR (-105)) [] 0 0 [] (fun _ => "") rfl (by decide)
    (by decide)).2.2.1 (by decide)

/-- C4 counterexample: the complete trace of a run on the 1-byte file [65]
shows the chunk emission Ev.outChunk — acting on the decoded success result
— strictly before the acknowledgment Ev.cqeSeen of that completion, so the
slot is not marked seen before the result is acted upon. -/
theorem c4_counterexample :
    runFile "p" "f" buf0c [65] =
      ([Ev.queueInit, Ev.openFile, Ev.outHeader "f", Ev.boundary 0 0,
        Ev.submit, Ev.observed 1, Ev.outChunk [65], Ev.cqeSeen,
        Ev.boundary 1 1, Ev.submit, Ev.observed 0, Ev.cqeSeen,
        Ev.outTotal 1, Ev.closeFile, Ev.queueExit], some EXIT_SUCCESS) ∧
    List.indexOf (Ev.outChunk [65]) (runFile "p" "f" buf0c [65]).1 <
      List.indexOf Ev.cqeSeen (runFile "p" "f" buf0c [65]).1 := by
  constructor <;> decide

/-- C4 amended: in every run the projection of the trace onto submissions,
observed completions and acknowledgments consists of complete blocks submit,
observed, cqeSeen — possibly followed by one trailing submit whose wait
step failed — so every observed completion is acknowledged exactly once and
before the next request is submitted; within an iteration, however, the
emission and state advance precede the acknowledgment. -/
theorem c4_ack_each_completion (prog : String) (args : List String)
    (qret oret : Int) (buf0 : List Nat) (envs : List IterEnv) :
    ∃ (rs : List Int) (tail : List Ev),
      sosList (runMain prog args qret oret buf0 envs).1 =
        (rs.map fun r => [Ev.submit, Ev.observed r, Ev.cqeSeen]).flatten
          ++ tail ∧
      (tail = [] ∨ tail = [Ev.submit]) := by
  cases args with
  | nil =>
    rw [runMain_usage]
    exact ⟨[], [], by simp [sosList, isSOS], Or.inl rfl⟩
  | cons fn args =>
    by_cases hq : qret < 0
    · rw [runMain_qinit_fail prog fn args qret oret buf0 envs hq]
      exact ⟨[], [], by simp [sosList, isSOS], Or.inl rfl⟩
    · by_cases ho : oret < 0
      · rw [runMain_open_fail prog fn args qret oret buf0 envs hq ho]
        exact ⟨[], [], by simp [sosList, isSOS], Or.inl rfl⟩
      · obtain ⟨rs, tail, hs, ht⟩ := readLoop_sos envs oret 0 0 buf0
        cases hres : (readLoop oret envs 0 0 buf0).2.2 with
        | exited c =>
          rw [runMain_exited prog fn args qret oret buf0 envs c hq ho hres]
          refine ⟨rs, tail, ?_, ht⟩
          simp only [sosList, List.filter_append] at hs ⊢
          simpa [isSOS] using hs
        | broke =>
          rw [runMain_broke prog fn args qret oret buf0 envs hq ho hres]
          refine ⟨rs, tail ++ [], ?_, by simpa using ht⟩
          simp only [sosList, List.filter_append] at hs ⊢
          simp [isSOS]
          simpa [isSOS] using hs
        | fuel =>
          rw [runMain_fuel prog fn args qret oret buf0 envs hq ho hres]
          refine ⟨rs, tail, ?_, ht⟩
          simp only [sosList, List.filter_append] at hs ⊢
          simpa [isSOS] using hs

/-- C10: whenever the queue is initialised and the file opened successfully,
the first stdout item of the run is the header line for the file name, so
standard output begins with the header rather than the first file byte. -/
theorem c10_header_first (prog fn : String) (qret oret : Int)
    (buf0 : List Nat) (envs : List IterEnv)
    (hq : 0 ≤ qret) (ho : 0 ≤ oret) :
    ∃ rest, stdoutEvs (runMain prog [fn] qret oret buf0 envs).1 =
      Ev.outHeader fn :: rest := by
  have hqn : ¬ qret < 0 := not_lt.mpr hq
  have hon : ¬ oret < 0 := not_lt.mpr ho
  cases hres : (readLoop oret envs 0 0 buf0).2.2 with
  | exited c =>
    rw [runMain_exited prog fn [] qret oret buf0 envs c hqn hon hres]
    exact ⟨stdoutEvs (readLoop oret envs 0 0 buf0).1,
      by simp [stdoutEvs, isStdout]⟩
  | broke =>
    rw [runMain_broke prog fn [] qret oret buf0 envs hqn hon hres]
    exact ⟨stdoutEvs (readLoop oret envs 0 0 buf0).1 ++
      [Ev.outTotal (readLoop oret envs 0 0 buf0).2.1],
      by simp [stdoutEvs, isStdout]⟩
  | fuel =>
    rw [runMain_fuel prog fn [] qret oret buf0 envs hqn hon hres]
    exact ⟨stdoutEvs (readLoop oret envs 0 0 buf0).1,
      by simp [stdoutEvs, isStdout]⟩

/-- Witness for c10_header_first on an empty-file run. -/
theorem c10_header_first_witness :
    ((0 : Int) ≤ 0) ∧ ((0 : Int) ≤ 3) ∧
    ∃ rest, stdoutEvs (runMain "p" ["f"] 0 3 buf0c (fileEnvs [])).1 =
      Ev.outHeader "f" :: rest :=
  ⟨by decide, by decide,
   c10_header_first "p" "f" 0 3 buf0c (fileEnvs []) (by decide) (by decide)⟩

/-- C3: at every loop iteration boundary the offset equals the running
total, both are non-negative and equal exactly the cumulative sum of the
byte counts of the prior successful completions, the boundary offsets never
decrease along the run, and the first boundary of a run that reaches the
loop is (0, 0). -/
theorem c3_offset_invariant (prog fn : String) (qret oret : Int)
    (buf0 : List Nat) (envs : List IterEnv) :
    (∀ p ∈ bndList (runMain prog [fn] qret oret buf0 envs).1,
      p.1 = p.2 ∧ 0 ≤ p.1) ∧
    List.Pairwise (fun a b => a.1 ≤ b.1)
      (bndList (runMain prog [fn] qret oret buf0 envs).1) ∧
    (0 ≤ qret → 0 ≤ oret →
      (bndList (runMain prog [fn] qret oret buf0 envs).1).head? =
        some (0, 0)) ∧
    (∀ (pre post : List Ev) (o t : Int),
      (runMain prog [fn] qret oret buf0 envs).1 =
        pre ++ Ev.boundary o t :: post →
      o = sumObs pre ∧ t = sumObs pre ∧
      sumObs pre = ((obsList pre).filter (fun r => decide (0 < r))).sum) := by
  have split_part : ∀ (pre post : List Ev) (o t : Int),
      (runMain prog [fn] qret oret buf0 envs).1 =
        pre ++ Ev.boundary o t :: post →
      o = sumObs pre ∧ t = sumObs pre ∧
      sumObs pre = ((obsList pre).filter (fun r => decide (0 < r))).sum := by
    intro pre post o t h
    obtain ⟨j1, j2, j3⟩ :=
      runMain_split prog [fn] qret oret buf0 envs pre post o t h
    refine ⟨j1, j2, ?_⟩
    have hf : (obsList pre).filter (fun r => decide (0 < r)) = obsList pre :=
      List.filter_eq_self.mpr (fun a ha => by simpa using j3 a ha)
    rw [hf]
    rfl
  have core : (∀ p ∈ bndList (runMain prog [fn] qret oret buf0 envs).1,
        p.1 = p.2 ∧ 0 ≤ p.1) ∧
      List.Pairwise (fun a b => a.1 ≤ b.1)
        (bndList (runMain prog [fn] qret oret buf0 envs).1) ∧
      (0 ≤ qret → 0 ≤ oret →
        (bndList (runMain prog [fn] qret oret buf0 envs).1).head? =
          some (0, 0)) := by
    by_cases hq : qret < 0
    · rw [runMain_qinit_fail prog fn [] qret oret buf0 envs hq]
      exact ⟨by simp [bndList, bndVal], by simp [bndList, bndVal],
        fun h0 _ => by omega⟩
    · by_cases ho : oret < 0
      · rw [runMain_open_fail prog fn [] qret oret buf0 envs hq ho]
        exact ⟨by simp [bndList, bndVal], by simp [bndList, bndVal],
          fun _ h1 => by omega⟩
      · obtain ⟨i1, i2, i3⟩ := readLoop_bnd envs oret 0 0 buf0
        have hmem : ∀ p ∈ bndList (readLoop oret envs 0 0 buf0).1,
            p.1 = p.2 ∧ 0 ≤ p.1 := by
          intro p hp
          obtain ⟨k1, k2, k3⟩ := i2 p hp
          exact ⟨by omega, by omega⟩
        cases hres : (readLoop oret envs 0 0 buf0).2.2 with
        | exited c =>
          rw [runMain_exited prog fn [] qret oret buf0 envs c hq ho hres]
          have key : bndList ([Ev.queueInit, Ev.openFile, Ev.outHeader fn]
                ++ (readLoop oret envs 0 0 buf0).1) =
              bndList (readLoop oret envs 0 0 buf0).1 := by
            simp [bndList, List.filterMap_append, bndVal]
          rw [key]
          exact ⟨hmem, i3, fun _ _ => i1⟩
        | broke =>
          rw [runMain_broke prog fn [] qret oret buf0 envs hq ho hres]
          have key : bndList ([Ev.queueInit, Ev.openFile, Ev.outHeader fn]
                ++ (readLoop oret envs 0 0 buf0).1 ++
                [Ev.outTotal (readLoop oret envs 0 0 buf0).2.1, Ev.closeFile,
                 Ev.queueExit]) =
              bndList (readLoop oret envs 0 0 buf0).1 := by
            simp [bndList, List.filterMap_append, bndVal]
          rw [key]
          exact ⟨hmem, i3, fun _ _ => i1⟩
        | fuel =>
          rw [runMain_fuel prog fn [] qret oret buf0 envs hq ho hres]
          have key : bndList ([Ev.queueInit, Ev.openFile, Ev.outHeader fn]
                ++ (readLoop oret envs 0 0 buf0).1) =
              bndList (readLoop oret envs 0 0 buf0).1 := by
            simp [bndList, List.filterMap_append, bndVal]
          rw [key]
          exact ⟨hmem, i3, fun _ _ => i1⟩
  exact ⟨core.1, core.2.1, core.2.2, split_part⟩

/-- Witness for c3_offset_invariant on the 1-byte file [65], with the
concrete split at the second boundary. -/
theorem c3_offset_invariant_witness :
    ((0 : Int) ≤ 0) ∧ ((0 : Int) ≤ 3) ∧
    (bndList (runMain "p" ["f"] 0 3 buf0c (fileEnvs [65])).1).head? =
      some (0, 0) ∧
    ((runMain "p" ["f"] 0 3 buf0c (fileEnvs [65])).1 =
      [Ev.queueInit, Ev.openFile, Ev.outHeader "f", Ev.boundary 0 0,
       Ev.submit, Ev.observed 1, Ev.outChunk [65], Ev.cqeSeen] ++
      Ev.boundary 1 1 ::
      [Ev.submit, Ev.observed 0, Ev.cqeSeen, Ev.outTotal 1, Ev.closeFile,
       Ev.queueExit]) ∧
    ((1 : Int) = sumObs [Ev.queueInit, Ev.openFile, Ev.outHeader "f",
      Ev.boundary 0 0, Ev.submit, Ev.observed 1, Ev.outChunk [65],
      Ev.cqeSeen]) := by
  refine ⟨by decide, by decide, ?_, by decide, ?_⟩
  · exact (c3_offset_invariant "p" "f" 0 3 buf0c (fileEnvs [65])).2.2.1
      (by decide) (by decide)
  · exact ((c3_offset_invariant "p" "f" 0 3 buf0c (fileEnvs [65])).2.2.2
      [Ev.queueInit, Ev.openFile, Ev.outHeader "f", Ev.boundary 0 0,
       Ev.submit, Ev.observed 1, Ev.outChunk [65], Ev.cqeSeen]
      [Ev.submit, Ev.observed 0, Ev.cqeSeen, Ev.outTotal 1, Ev.closeFile,
       Ev.queueExit] 1 1 (by decide)).1

/-- C5: every run that produces an exit status releases the acquired
resources exactly once: the ring is torn down exactly once whenever queue
initialisation succeeded (including when the subsequent open failed), the
descriptor is closed exactly once whenever the open succeeded, no release
happens for resources never acquired, and the no-argument usage error
touches no resource at all. -/
theorem c5_cleanup (prog fn : String) (qret oret : Int) (buf0 : List Nat)
    (envs : List IterEnv) (c : Int)
    (hc : (runMain prog [fn] qret oret buf0 envs).2 = some c) :
    (0 ≤ qret →
      List.countP isQExit (runMain prog [fn] qret oret buf0 envs).1 = 1) ∧
    (qret < 0 →
      List.countP isQExit (runMain prog [fn] qret oret buf0 envs).1 = 0 ∧
      List.countP isClose (runMain prog [fn] qret oret buf0 envs).1 = 0) ∧
    (0 ≤ qret → 0 ≤ oret →
      List.countP isClose (runMain prog [fn] qret oret buf0 envs).1 = 1) ∧
    (0 ≤ qret → oret < 0 →
      List.countP isClose (runMain prog [fn] qret oret buf0 envs).1 = 0 ∧
      List.countP isQExit (runMain prog [fn] qret oret buf0 envs).1 = 1) ∧
    (List.countP isQInit (runMain prog [] qret oret buf0 envs).1 = 0 ∧
     List.countP isOpen (runMain prog [] qret oret buf0 envs).1 = 0) := by
  have usage_part :
      List.countP isQInit (runMain prog [] qret oret buf0 envs).1 = 0 ∧
      List.countP isOpen (runMain prog [] qret oret buf0 envs).1 = 0 := by
    rw [runMain_usage]
    exact ⟨by simp [isQInit, List.countP_cons],
      by simp [isOpen, List.countP_cons]⟩
  by_cases hq : qret < 0
  · rw [runMain_qinit_fail prog fn [] qret oret buf0 envs hq]
    exact ⟨fun h0 => by omega,
      fun _ => ⟨by simp [isQExit, List.countP_cons],
        by simp [isClose, List.countP_cons]⟩,
      fun h0 _ => by omega, fun h0 _ => by omega, usage_part⟩
  · by_cases ho : oret < 0
    · rw [runMain_open_fail prog fn [] qret oret buf0 envs hq ho]
      exact ⟨fun _ => by simp [isQExit, List.countP_cons],
        fun h0 => by omega, fun _ h1 => by omega,
        fun _ _ => ⟨by simp [isClose, List.countP_cons],
          by simp [isQExit, List.countP_cons]⟩, usage_part⟩
    · cases hres : (readLoop oret envs 0 0 buf0).2.2 with
      | exited c2 =>
        obtain ⟨e1, e2, e3⟩ :=
          ((readLoop_exit_shape envs oret 0 0 buf0).2.2.2.1) c2 hres
        rw [runMain_exited prog fn [] qret oret buf0 envs c2 hq ho hres]
        refine ⟨fun _ => ?_, fun h0 => by omega, fun _ _ => ?_,
          fun _ h1 => by omega, usage_part⟩
        · simp [List.countP_append, List.countP_cons, isQExit, e3]
        · simp [List.countP_append, List.countP_cons, isClose, e2]
      | broke =>
        obtain ⟨b1, b2⟩ :=
          ((readLoop_exit_shape envs oret 0 0 buf0).2.2.2.2.1) hres
        rw [runMain_broke prog fn [] qret oret buf0 envs hq ho hres]
        refine ⟨fun _ => ?_, fun h0 => by omega, fun _ _ => ?_,
          fun _ h1 => by omega, usage_part⟩
        · simp [List.countP_append, List.countP_cons, isQExit, b2]
        · simp [List.countP_append, List.countP_cons, isClose, b1]
      | fuel =>
        exfalso
        rw [runMain_fuel prog fn [] qret oret buf0 envs hq ho hres] at hc
        simp at hc

/-- Witness for c5_cleanup on an empty-file run. -/
theorem c5_cleanup_witness :
    ((runMain "p" ["f"] 0 3 buf0c (fileEnvs [])).2 = some 0) ∧
    ((0 : Int) ≤ 0) ∧ ((0 : Int) ≤ 3) ∧
    List.countP isQExit (runMain "p" ["f"] 0 3 buf0c (fileEnvs [])).1 = 1 ∧
    List.countP isClose (runMain "p" ["f"] 0 3 buf0c (fileEnvs [])).1 = 1 := by
  have hc : (runMain "p" ["f"] 0 3 buf0c (fileEnvs [])).2 = some 0 := by
    decide
  refine ⟨hc, by decide, by decide, ?_, ?_⟩
  · exact (c5_cleanup "p" "f" 0 3 buf0c (fileEnvs []) 0 hc).1 (by decide)
  · exact (c5_cleanup "p" "f" 0 3 buf0c (fileEnvs []) 0 hc).2.2.1 (by decide)
      (by decide)

/-- C9: the exit status is 0 exactly on normal termination — characterised
by the total line being written — and is the nonzero error status on every
fatal condition; invoking with no positional argument writes the usage
diagnostic to stderr and exits nonzero with no descriptor or ring ever
acquired. -/
theorem c9_exit_status (prog fn : String) (qret oret : Int)
    (buf0 : List Nat) (envs : List IterEnv) (content : List Nat) (c : Int) :
    (runMain prog [] qret oret buf0 envs =
      ([Ev.err (Diag.usage prog)], some EXIT_ERROR)) ∧
    (EXIT_ERROR ≠ 0) ∧
    (List.countP isQInit (runMain prog [] qret oret buf0 envs).1 = 0) ∧
    (List.countP isOpen (runMain prog [] qret oret buf0 envs).1 = 0) ∧
    (qret < 0 →
      (runMain prog [fn] qret oret buf0 envs).2 = some EXIT_ERROR) ∧
    (¬ qret < 0 → oret < 0 →
      (runMain prog [fn] qret oret buf0 envs).2 = some EXIT_ERROR) ∧
    ((runFile prog fn buf0 content).2 = some EXIT_SUCCESS) ∧
    ((runMain prog [fn] qret oret buf0 envs).2 = some c →
      (c = EXIT_SUCCESS ∨ c = EXIT_ERROR) ∧
      (c = EXIT_SUCCESS ↔
        List.countP isTotal (runMain prog [fn] qret oret buf0 envs).1
          = 1)) := by
  refine ⟨runMain_usage prog qret oret buf0 envs, by decide,
    by rw [runMain_usage]; simp [isQInit, List.countP_cons],
    by rw [runMain_usage]; simp [isOpen, List.countP_cons],
    fun hq => by rw [runMain_qinit_fail prog fn [] qret oret buf0 envs hq],
    fun hqn ho => by
      rw [runMain_open_fail prog fn [] qret oret buf0 envs hqn ho],
    (runFile_spec prog fn buf0 content).1, ?_⟩
  intro hc
  by_cases hq : qret < 0
  · rw [runMain_qinit_fail prog fn [] qret oret buf0 envs hq] at hc ⊢
    simp only at hc
    rw [Option.some.injEq] at hc
    subst hc
    refine ⟨Or.inr rfl, iff_of_false (by decide) ?_⟩
    simp [isTotal, List.countP_cons]
  · by_cases ho : oret < 0
    · rw [runMain_open_fail prog fn [] qret oret buf0 envs hq ho] at hc ⊢
      simp only at hc
      rw [Option.some.injEq] at hc
      subst hc
      refine ⟨Or.inr rfl, iff_of_false (by decide) ?_⟩
      simp [isTotal, List.countP_cons]
    · cases hres : (readLoop oret envs 0 0 buf0).2.2 with
      | exited c2 =>
        have hTot := (readLoop_exit_shape envs oret 0 0 buf0).1
        have hc2 :=
          (((readLoop_exit_shape envs oret 0 0 buf0).2.2.2.1) c2 hres).1
        rw [runMain_exited prog fn [] qret oret buf0 envs c2 hq ho hres]
          at hc ⊢
        simp only at hc
        rw [Option.some.injEq] at hc
        subst hc
        subst hc2
        refine ⟨Or.inr rfl, iff_of_false (by decide) ?_⟩
        simp [List.countP_append, List.countP_cons, isTotal, hTot]
      | broke =>
        have hTot := (readLoop_exit_shape envs oret 0 0 buf0).1
        rw [runMain_broke prog fn [] qret oret buf0 envs hq ho hres]
          at hc ⊢
        simp only at hc
        rw [Option.some.injEq] at hc
        subst hc
        refine ⟨Or.inl rfl, iff_of_true rfl ?_⟩
        simp [List.countP_append, List.countP_cons, isTotal, hTot]
      | fuel =>
        exfalso
        rw [runMain_fuel prog fn [] qret oret buf0 envs hq ho hres] at hc
        simp at hc

/-- Witness for c9_exit_status on an empty-file run with exit status 0. -/
theorem c9_exit_status_witness :
    ((runMain "p" ["f"] 0 3 buf0c (fileEnvs [])).2 = some 0) ∧
    (((0 : Int) = EXIT_SUCCESS ∨ (0 : Int) = EXIT_ERROR) ∧
     ((0 : Int) = EXIT_SUCCESS ↔
       List.countP isTotal (runMain "p" ["f"] 0 3 buf0c (fileEnvs [])).1
         = 1)) := by
  have hc : (runMain "p" ["f"] 0 3 buf0c (fileEnvs [])).2 = some 0 := by
    decide
  exact ⟨hc,
    (c9_exit_status "p" "f" 0 3 buf0c (fileEnvs []) [] 0).2.2.2.2.2.2.2 hc⟩

end Eproxy
